import Mathlib

/-!
Shallow embedding of the hdls language server core (main.go) and proofs of
the specified properties.  Source bytes are modelled as Lean strings whose
characters stand for bytes; syntax trees produced by the external tree
sitter parser are modelled as an explicit tree type carrying the data the
program reads from nodes (kind, error flag, named flag, byte span, points,
field name, children).  Fallible operations return Option, where none
stands for a Go runtime panic or error, as noted at each definition.
-/

namespace Hdls

/-- A tree sitter point: zero based row and column. -/
structure Point where
  row : Nat
  col : Nat
deriving DecidableEq, Repr

/-- A protocol range, two points. -/
structure DiagRange where
  startPos : Point
  endPos : Point
deriving DecidableEq, Repr

/-- A published diagnostic: range, severity (1 = error) and message. -/
structure Diagnostic where
  range : DiagRange
  severity : Nat
  message : String
deriving DecidableEq, Repr

mutual

/-- A tree sitter node as observed through the API the program uses:
kind string, IsError flag, named flag, byte span, start and end points,
the field name this node is attached under (if any), and all children. -/
inductive TSNode where
  | mk (kind : String) (isErrorNode : Bool) (isNamed : Bool)
       (startByte : Nat) (endByte : Nat)
       (startPoint : Point) (endPoint : Point)
       (fieldName : Option String) (children : TSForest)

/-- A list of tree sitter nodes, as a separate inductive so that all
traversals are plain structural recursions. -/
inductive TSForest where
  | nil : TSForest
  | cons : TSNode → TSForest → TSForest

end

def TSNode.kind : TSNode → String
  | .mk k _ _ _ _ _ _ _ _ => k

def TSNode.isErrorNode : TSNode → Bool
  | .mk _ e _ _ _ _ _ _ _ => e

def TSNode.isNamed : TSNode → Bool
  | .mk _ _ m _ _ _ _ _ _ => m

def TSNode.startByte : TSNode → Nat
  | .mk _ _ _ s _ _ _ _ _ => s

def TSNode.endByte : TSNode → Nat
  | .mk _ _ _ _ e _ _ _ _ => e

def TSNode.startPoint : TSNode → Point
  | .mk _ _ _ _ _ p _ _ _ => p

def TSNode.endPoint : TSNode → Point
  | .mk _ _ _ _ _ _ q _ _ => q

def TSNode.fieldName : TSNode → Option String
  | .mk _ _ _ _ _ _ _ f _ => f

def TSNode.children : TSNode → TSForest
  | .mk _ _ _ _ _ _ _ _ cs => cs

def TSForest.toList : TSForest → List TSNode
  | .nil => []
  | .cons n f => n :: TSForest.toList f

/-- All direct children as a list (Go Child i / ChildCount). -/
def TSNode.childList (n : TSNode) : List TSNode :=
  n.children.toList

/-- Go ChildByFieldName: the first direct child attached under the field. -/
def TSNode.childByFieldName (n : TSNode) (f : String) : Option TSNode :=
  n.childList.find? (fun c => c.fieldName == some f)

/-- Go Child i; none models the nil node returned out of range. -/
def TSNode.child (n : TSNode) (i : Nat) : Option TSNode :=
  n.childList[i]?

/-! String helpers mirroring the Go standard library functions used. -/

/-- Whitespace as trimmed by strings.TrimSpace (ASCII fragment). -/
def isSpaceChar (c : Char) : Bool :=
  c = ' ' || c = '\t' || c = '\n' || c = '\r'

/-- strings.TrimSpace. -/
def trimSpaceStr (s : String) : String :=
  ⟨((s.data.dropWhile isSpaceChar).reverse.dropWhile isSpaceChar).reverse⟩

/-- Does the character list s start with the character list p. -/
def startsWithList : List Char → List Char → Bool
  | _, [] => true
  | [], _ :: _ => false
  | a :: s, b :: p => a = b && startsWithList s p

/-- strings.HasPrefix on strings, then used by stripPre. -/
def strStartsWith (s pre : String) : Bool :=
  startsWithList s.data pre.data

/-- strings.TrimPrefix. -/
def stripPre (s pre : String) : String :=
  if strStartsWith s pre then ⟨s.data.drop pre.data.length⟩ else s

/-- strings.HasSuffix. -/
def strEndsWith (s suf : String) : Bool :=
  startsWithList s.data.reverse suf.data.reverse

/-- strings.TrimSuffix. -/
def trimSuffixStr (s suf : String) : String :=
  if strEndsWith s suf then ⟨s.data.take (s.data.length - suf.data.length)⟩ else s

/-- The byte slice source[a:b] of the document, as a string. -/
def sliceStr (source : String) (a b : Nat) : String :=
  ⟨(source.data.drop a).take (b - a)⟩

/-! The diagnostic analyzer (the publishDiagnostics closure in main.go). -/

/-- newDiagnostic in main.go: an error severity diagnostic anchored at the
start and end points of the given node. -/
def newDiagnostic (n : TSNode) (msg : String) : Diagnostic :=
  { range := { startPos := n.startPoint, endPos := n.endPoint }
    severity := 1
    message := msg }

/-- The fixed definition file extension (const ext in main.go). -/
def ext : String := ".hdl"

/-- Mutable state threaded through the diagnostic walk: the chip name of
the enclosing definition (Go zero value is the empty string) and the
diagnostics accumulated so far, in emission order. -/
structure WalkState where
  implementingChipName : String
  diagnostics : List Diagnostic
deriving DecidableEq, Repr

/-- The scan of a part node over its direct children looking for the first
error kind child (the for loop with break in the part case of the walk).
Returns the diagnostics the scan appends; none models the Go panic when
Child 1 of the error node is nil and newDiagnostic dereferences it. -/
def errorScan (source : String) : List TSNode → Option (List Diagnostic)
  | [] => some []
  | c :: rest =>
    if c.isErrorNode then
      if strStartsWith (trimSpaceStr (sliceStr source c.startByte c.endByte)) ")" then
        match c.child 1 with
        | some second => some [newDiagnostic second "Expected \";\""]
        | none => none
      else some []
    else errorScan source rest

/-- The switch body of the diagnostic walk applied at one visited node:
the chip definition case updates the current defining name, the part case
appends the self reference and undefined chip diagnostics and then runs
the error child scan.  none models a panic inside the error scan. -/
def processNode (source : String) (chips : List String) (n : TSNode)
    (st : WalkState) : Option WalkState :=
  if trimSpaceStr n.kind = "chip_definition" then
    match n.childByFieldName "name" with
    | some name =>
        some { st with implementingChipName := sliceStr source name.startByte name.endByte }
    | none => some st
  else if trimSpaceStr n.kind = "part" then
    let st1 :=
      match n.childByFieldName "chip_name" with
      | some name =>
          let chipName := sliceStr source name.startByte name.endByte
          let d1 :=
            if chipName = st.implementingChipName then
              [newDiagnostic name ("Cannot use chip " ++ chipName ++ " to implement itself")]
            else []
          let d2 :=
            if chips.contains chipName then []
            else [newDiagnostic name ("Undefined chip name: " ++ chipName)]
          { st with diagnostics := st.diagnostics ++ d1 ++ d2 }
      | none => st
    match errorScan source n.childList with
    | some ds => some { st1 with diagnostics := st1.diagnostics ++ ds }
    | none => none
  else some st

mutual

/-- The recursive walk of the diagnostic analyzer: process the node, then
recurse into its named children in order. -/
def walkNode (source : String) (chips : List String) :
    TSNode → WalkState → Option WalkState
  | n@(.mk _ _ _ _ _ _ _ _ cs), st =>
    match processNode source chips n st with
    | none => none
    | some st1 => walkForest source chips cs st1

/-- Walk a forest of children, visiting named children only
(NamedChild / NamedChildCount in main.go). -/
def walkForest (source : String) (chips : List String) :
    TSForest → WalkState → Option WalkState
  | .nil, st => some st
  | .cons c rest, st =>
    if c.isNamed then
      match walkNode source chips c st with
      | none => none
      | some st1 => walkForest source chips rest st1
    else walkForest source chips rest st

end

/-- The whole diagnostic pass over a parsed tree: the walk started from
the root with the Go zero values, returning the emitted diagnostics. -/
def analyze (source : String) (chips : List String) (tree : TSNode) :
    Option (List Diagnostic) :=
  (walkNode source chips tree { implementingChipName := "", diagnostics := [] }).map
    (fun st => st.diagnostics)

/-! URI decoding and path manipulation (net/url and path/filepath). -/

/-- The value of a hexadecimal digit byte (the unhex helper of net/url,
working on code points), none for anything that is not a hex digit. -/
def hexVal (c : Char) : Option Nat :=
  let n := c.toNat
  if 48 ≤ n && n ≤ 57 then some (n - 48)
  else if 97 ≤ n && n ≤ 102 then some (n - 87)
  else if 65 ≤ n && n ≤ 70 then some (n - 55)
  else none

mutual

/-- url.QueryUnescape: percent escapes are decoded, a plus becomes a
space, an invalid escape is an error (none). -/
def queryUnescapeList : List Char → Option (List Char)
  | [] => some []
  | c :: rest =>
    if c = '%' then percentDecode rest
    else if c = '+' then (queryUnescapeList rest).map (fun r => ' ' :: r)
    else (queryUnescapeList rest).map (fun r => c :: r)

/-- The continuation after a percent sign: two hexadecimal digits are
required, anything else is an error. -/
def percentDecode : List Char → Option (List Char)
  | a :: b :: rest2 =>
    match hexVal a, hexVal b with
    | some x, some y =>
      (queryUnescapeList rest2).map (fun r => Char.ofNat (16 * x + y) :: r)
    | _, _ => none
  | _ => none

end

/-- toFilePath in main.go: trim whitespace, query unescape discarding the
error (Go then holds the empty string), strip a leading file scheme. -/
def toFilePath (uri : String) : String :=
  let unescaped : List Char := (queryUnescapeList (trimSpaceStr uri).data).getD []
  stripPre ⟨unescaped⟩ "file:"

/-- Split a character list on the slash separator. -/
def splitOnSlash : List Char → List (List Char)
  | [] => [[]]
  | c :: rest =>
    let r := splitOnSlash rest
    if c = '/' then [] :: r
    else
      match r with
      | [] => [[c]]
      | l :: ls => (c :: l) :: ls

/-- The stack pass of the lexical path cleaning: dot dot pops a component
(or is kept, for a relative path with nothing to pop; or dropped, at the
root), everything else is pushed. -/
def cleanStack (rooted : Bool) : List (List Char) → List (List Char) → List (List Char)
  | stack, [] => stack.reverse
  | stack, c :: rest =>
    if c = ['.', '.'] then
      match stack with
      | [] => if rooted then cleanStack rooted [] rest else cleanStack rooted [c] rest
      | top :: more =>
        if top = ['.', '.'] then cleanStack rooted (c :: top :: more) rest
        else cleanStack rooted more rest
    else cleanStack rooted (c :: stack) rest

/-- filepath.Clean for slash separated paths: drop empty and single dot
components, resolve dot dot lexically, keep the rooted flag. -/
def cleanPath (path : String) : String :=
  if path.data = [] then "."
  else
    let rooted := path.data.head? = some '/'
    let comps := (splitOnSlash path.data).filter (fun c => c ≠ [] && c ≠ ['.'])
    let kept := cleanStack rooted [] comps
    let joined : List Char := (kept.intersperse ['/']).flatten
    if rooted then ⟨'/' :: joined⟩
    else if joined = [] then "."
    else ⟨joined⟩

/-- filepath.Join: drop empty elements, join with slashes, clean; the
join of nothing but empty strings is empty. -/
def goJoin (elems : List String) : String :=
  let parts := elems.filter (fun e => e ≠ "")
  if parts = [] then ""
  else cleanPath ⟨((parts.map String.data).intersperse ['/']).flatten⟩

/-- filepath.Dir: everything up to the final slash, cleaned; a path with
no slash has directory dot. -/
def dirPath (p : String) : String :=
  cleanPath ⟨(p.data.reverse.dropWhile (fun c => c ≠ '/')).reverse⟩

/-- filepath.Base: the final element of the path, after trailing slashes
are removed; the empty path has base dot, an all slash path has base
slash. -/
def basePath (p : String) : String :=
  if p.data = [] then "."
  else
    let t := p.data.reverse.dropWhile (fun c => c = '/')
    if t = [] then "/"
    else ⟨(t.takeWhile (fun c => c ≠ '/')).reverse⟩

/-- filepath.Ext: the suffix of the final element from its final dot
(inclusive), empty if the final element has no dot. -/
def extPath (p : String) : String :=
  let r := p.data.reverse.takeWhile (fun c => c ≠ '/')
  if r.contains '.' then ⟨'.' :: (r.takeWhile (fun c => c ≠ '.')).reverse⟩
  else ""

/-- baseDir in main.go: the directory of the file the URI denotes. -/
def baseDir (uri : String) : String :=
  dirPath (toFilePath uri)

/-- builtInChipsDir in main.go: ascend two levels from the base
directory, clean, then append tools/builtInChips. -/
def builtInChipsDir (uri : String) : String :=
  let b := cleanPath (goJoin [baseDir uri, "..", ".."])
  goJoin [b, "tools", "builtInChips"]

/-! The position translator. -/

/-- strings.Split on the newline separator: the text as a non empty list
of lines, separators removed. -/
def splitLines : List Char → List (List Char)
  | [] => [[]]
  | c :: rest =>
    let r := splitLines rest
    if c = '\n' then [] :: r
    else
      match r with
      | [] => [[c]]
      | l :: ls => (c :: l) :: ls

/-- getByteOffset in main.go.  The translation mirrors the Go control
flow exactly: when the line index strictly exceeds the number of lines
the total length is returned; otherwise the line is indexed and its
prefix of length char is sliced, and none models the Go index out of
range panic when the line index equals the number of lines or char
exceeds the line length. -/
def getByteOffset (text : String) (line char : Nat) : Option Nat :=
  let lines := splitLines text.data
  if line > lines.length then some text.data.length
  else
    match lines[line]? with
    | none => none
    | some l =>
      if char ≤ l.length then
        some (((lines.take line).foldl (fun acc li => acc + li.length + 1) 0) + char)
      else none

/-! The process environment: the capabilities the program consumes
(filesystem and the external parser), supplied as explicit functions. -/

/-- The outcome of os.Stat as the program distinguishes it. -/
inductive StatRes where
  | ok : StatRes
  | notExist : StatRes
  | otherErr : StatRes
deriving DecidableEq, Repr

/-- One callback delivered by filepath.WalkDir: a visited entry with its
directory flag, or the error callback that aborts the walk. -/
inductive WalkEntry where
  | entry (path : String) (isDir : Bool) : WalkEntry
  | failure : WalkEntry
deriving DecidableEq, Repr

/-- The environment: the parser (a black box from bytes to trees), file
reading (none is a read error), stat, and the walk callback sequence a
directory produces. -/
structure Env where
  parse : String → TSNode
  read : String → Option String
  stat : String → StatRes
  walkDir : String → List WalkEntry

/-- readFile in main.go: the URI is translated to a path and read. -/
def readFile (env : Env) (uri : String) : Option String :=
  env.read (toFilePath uri)

/-! The symbol catalog (collectChips in main.go). -/

/-- Insertion into the catalog set (Go map assignment). -/
def insertChip (chips : List String) (c : String) : List String :=
  if chips.contains c then chips else chips ++ [c]

/-- The WalkDir callback fold: every non directory entry with the
definition extension adds its base name (extension stripped); the error
callback returns the error, aborting the walk with the set as mutated so
far.  The Bool is true when the walk completed without error. -/
def collectChipsList : List WalkEntry → List String → List String × Bool
  | [], chips => (chips, true)
  | .failure :: _, chips => (chips, false)
  | .entry p d :: rest, chips =>
    let chips1 :=
      if !d && extPath p == ext then insertChip chips (trimSuffixStr (basePath p) ext)
      else chips
    collectChipsList rest chips1

/-- collectChips in main.go over the walk of the given directory. -/
def collectChips (env : Env) (dir : String) (chips : List String) :
    List String × Bool :=
  collectChipsList (env.walkDir dir) chips

/-! The definition resolver (the OnDefinition handler). -/

mutual

/-- DescendantForByteRange followed by Parent, fused: descend to the
smallest node whose span covers the offset, remembering the node it was
reached from; none models the nil parent of the root, which the handler
then dereferences. -/
def descendParent (off : Nat) : TSNode → Option TSNode → Option TSNode
  | n@(.mk _ _ _ _ _ _ _ _ cs), parent => descendSearch off n cs parent

/-- Search the children of n for the first one covering the offset and
keep descending; if none covers it, n itself is the descendant and the
remembered node is its parent. -/
def descendSearch (off : Nat) (n : TSNode) : TSForest → Option TSNode → Option TSNode
  | .nil, parent => parent
  | .cons c rest, parent =>
    if c.startByte ≤ off && off < c.endByte then descendParent off c (some n)
    else descendSearch off n rest parent

end

mutual

/-- The position capturing walk inside OnDefinition: every chip
definition node with a name field overwrites the captured start and end
points with the span of that field; no early exit. -/
def defWalkNode : TSNode → Point × Point → Point × Point
  | n@(.mk _ _ _ _ _ _ _ _ cs), pos =>
    let pos1 :=
      if trimSpaceStr n.kind = "chip_definition" then
        match n.childByFieldName "name" with
        | some name => (name.startPoint, name.endPoint)
        | none => pos
      else pos
    defWalkForest cs pos1

/-- The recursion of the position capturing walk over named children. -/
def defWalkForest : TSForest → Point × Point → Point × Point
  | .nil, pos => pos
  | .cons c rest, pos =>
    if c.isNamed then defWalkForest rest (defWalkNode c pos)
    else defWalkForest rest pos

end

/-- A protocol location link as the handler fills it in. -/
structure LocationLink where
  targetUri : String
  targetRange : DiagRange
  targetSelectionRange : DiagRange
deriving DecidableEq, Repr

/-- The four ways the OnDefinition handler can end: a runtime panic
(nil node dereference or slice out of range), a returned error, the
empty nil result, or a result list. -/
inductive DefOutcome where
  | crashed : DefOutcome
  | failed : DefOutcome
  | empty : DefOutcome
  | links (ls : List LocationLink) : DefOutcome
deriving DecidableEq, Repr

/-- The OnDefinition handler.  Faithful points worth noting: the target
file is parsed, but the position capturing walk is run over the tree of
the requesting document (walk is applied to tree.RootNode() in
main.go), so the captured span comes from the source tree; and the
stat fallback to the built in directory fires only on a not exist
error. -/
def onDefinition (env : Env) (uri : String) (line char : Nat) : DefOutcome :=
  match readFile env uri with
  | none => .failed
  | some source =>
    match getByteOffset source line char with
    | none => .crashed
    | some off =>
      let tree := env.parse source
      match descendParent off tree none with
      | none => .crashed
      | some node =>
        if trimSuffixStr node.kind "\n" = "part" then
          match node.childByFieldName "chip_name" with
          | some name =>
            let primitiveChipName := sliceStr source name.startByte name.endByte
            let fileName := primitiveChipName ++ ext
            let path := goJoin [baseDir uri, fileName]
            let targetUri :=
              if env.stat path = .notExist then goJoin [builtInChipsDir uri, fileName]
              else path
            match readFile env targetUri with
            | none => .failed
            | some targetSource =>
              let _targetTree := env.parse targetSource
              let pos := defWalkNode tree (⟨0, 0⟩, ⟨0, 0⟩)
              let targetRange : DiagRange := ⟨pos.1, pos.2⟩
              .links [⟨"file://" ++ targetUri, targetRange, targetRange⟩]
          | none => .empty
        else .empty

/-! The document lifecycle handlers. -/

/-- The payload handed to the diagnostics publication notification. -/
structure PublishParams where
  uri : String
  version : Nat
  diagnostics : List Diagnostic
deriving DecidableEq, Repr

/-- The publishDiagnostics closure: parse the source, analyze, and build
the notification payload; none models a panic inside the walk. -/
def publishDiagnostics (env : Env) (chips : List String) (source : String)
    (uri : String) (version : Nat) : Option PublishParams :=
  (analyze source chips (env.parse source)).map
    (fun ds => { uri := uri, version := version, diagnostics := ds })

/-- How the OnDidOpenTextDocument handler can end: an error returned
from a directory walk (before any diagnostics are published), a panic
inside the diagnostic walk, or completion with published diagnostics.
Each carries the catalog as mutated so far (the Go map is shared, so
entries added before a failure persist). -/
inductive OpenOutcome where
  | walkError (chips : List String) : OpenOutcome
  | crashed (chips : List String) : OpenOutcome
  | done (chips : List String) (pub : PublishParams) : OpenOutcome
deriving DecidableEq, Repr

/-- The OnDidOpenTextDocument handler: collect the catalog from the
built in directory then from the base directory, erroring out if either
walk fails, then publish diagnostics.  The openFiles map is written here
in main.go but never read anywhere, so it is not part of the model. -/
def onDidOpenTextDocument (env : Env) (uri : String) (text : String)
    (version : Nat) (chips : List String) : OpenOutcome :=
  let r1 := collectChips env (builtInChipsDir uri) chips
  if !r1.2 then .walkError r1.1
  else
    let r2 := collectChips env (baseDir uri) r1.1
    if !r2.2 then .walkError r2.1
    else
      match publishDiagnostics env r2.1 text uri version with
      | none => .crashed r2.1
      | some pub => .done r2.1 pub

/-- The OnDidChangeTextDocument handler: one diagnostic pass per content
change, in order; none models a panic in one of the passes (the catalog
is read, never written). -/
def onDidChangeTextDocument (env : Env) (chips : List String) (uri : String)
    (version : Nat) : List String → Option (List PublishParams)
  | [] => some []
  | c :: rest =>
    match publishDiagnostics env chips c uri version with
    | none => none
    | some p =>
      match onDidChangeTextDocument env chips uri version rest with
      | none => none
      | some ps => some (p :: ps)

/-- One protocol event as delivered to the server. -/
inductive Event where
  | openDoc (uri : String) (text : String) (version : Nat) : Event
  | changeDoc (uri : String) (version : Nat) (changes : List String) : Event
  | defRequest (uri : String) (line char : Nat) : Event

/-- The catalog a finished open handler leaves behind. -/
def OpenOutcome.chips : OpenOutcome → List String
  | .walkError c => c
  | .crashed c => c
  | .done c _ => c

/-- The effect of handling one event on the catalog: only the open
handler touches it, the change and definition handlers read it at most. -/
def handleEvent (env : Env) (chips : List String) : Event → List String
  | .openDoc uri text version => (onDidOpenTextDocument env uri text version chips).chips
  | .changeDoc _ _ _ => chips
  | .defRequest _ _ _ => chips

/-! Derived abbreviations used in statements. -/

/-- The candidate definition file in the directory of the document
itself (filepath.Join(baseDir(uri), fileName) in OnDefinition). -/
def wsCandidate (uri source : String) (name : TSNode) : String :=
  goJoin [baseDir uri, sliceStr source name.startByte name.endByte ++ ext]

/-- The candidate definition file in the built in library directory. -/
def builtinCandidate (uri source : String) (name : TSNode) : String :=
  goJoin [builtInChipsDir uri, sliceStr source name.startByte name.endByte ++ ext]

/-- The range OnDefinition builds from the captured positions of the
position capturing walk over the given tree, started from the Go zero
valued points. -/
def capturedRange (tree : TSNode) : DiagRange :=
  ⟨(defWalkNode tree (⟨0, 0⟩, ⟨0, 0⟩)).1, (defWalkNode tree (⟨0, 0⟩, ⟨0, 0⟩)).2⟩

/-- The character map url.QueryUnescape applies to escape free input. -/
def plusToSpace (c : Char) : Char :=
  if c = '+' then ' ' else c

/-- Modelled from the spec sentence on the malformed statement rule, for
comparison with the scan the code performs: look at the first error kind
direct child only; if its trimmed text starts with a closing
parenthesis, one Expected semicolon diagnostic anchored at that error
node's second child, otherwise nothing. -/
def specSemicolonDiags (source : String) (cs : List TSNode) : List Diagnostic :=
  match cs.find? (fun c => c.isErrorNode) with
  | none => []
  | some c =>
    if strStartsWith (trimSpaceStr (sliceStr source c.startByte c.endByte)) ")" then
      match c.child 1 with
      | some second => [newDiagnostic second "Expected \";\""]
      | none => []
    else []

/-! Concrete fixtures: a workspace document CHIP Foo instantiating Bar,
and a target file defining Bar whose definition name sits on a
different line, so the two captured spans differ. -/

/-- The opened document, at path /w/p/Main.hdl. -/
def srcText : String := "CHIP Foo { PARTS: Bar(); }"

/-- The target definition file, at path /w/p/Bar.hdl. -/
def tgtText : String := "//x\nCHIP Bar { }"

/-- The name field child of the chip definition in the source: Foo at
bytes 5 to 8, points (0,5) to (0,8). -/
def nameNodeF : TSNode :=
  .mk "identifier" false true 5 8 ⟨0, 5⟩ ⟨0, 8⟩ (some "name") .nil

/-- The chip name field child of the part in the source: Bar at bytes
18 to 21, points (0,18) to (0,21). -/
def chipNameNodeF : TSNode :=
  .mk "identifier" false true 18 21 ⟨0, 18⟩ ⟨0, 21⟩ (some "chip_name") .nil

/-- The part node of the source document. -/
def partNodeF : TSNode :=
  .mk "part" false true 11 24 ⟨0, 11⟩ ⟨0, 24⟩ none (.cons chipNameNodeF .nil)

/-- The chip definition node of the source document. -/
def chipDefF : TSNode :=
  .mk "chip_definition" false true 0 26 ⟨0, 0⟩ ⟨0, 26⟩ none
    (.cons nameNodeF (.cons partNodeF .nil))

/-- The parsed tree of the source document. -/
def srcTreeF : TSNode :=
  .mk "source_file" false true 0 26 ⟨0, 0⟩ ⟨0, 26⟩ none (.cons chipDefF .nil)

/-- The name field child of the definition in the target file: Bar at
bytes 9 to 12, points (1,5) to (1,8). -/
def tgtNameF : TSNode :=
  .mk "identifier" false true 9 12 ⟨1, 5⟩ ⟨1, 8⟩ (some "name") .nil

/-- The chip definition node of the target file. -/
def tgtDefF : TSNode :=
  .mk "chip_definition" false true 4 16 ⟨1, 0⟩ ⟨1, 12⟩ none (.cons tgtNameF .nil)

/-- The parsed tree of the target file. -/
def tgtTreeF : TSNode :=
  .mk "source_file" false true 0 16 ⟨0, 0⟩ ⟨1, 12⟩ none (.cons tgtDefF .nil)

/-- An environment around the two fixture files: the workspace
candidate /w/p/Bar.hdl exists and is readable. -/
def envMain : Env :=
  { parse := fun s => if s = srcText then srcTreeF else tgtTreeF
    read := fun p =>
      if p = "///w/p/Main.hdl" then some srcText
      else if p = "/w/p/Bar.hdl" then some tgtText
      else none
    stat := fun _ => .ok
    walkDir := fun _ => [] }

/-- An environment whose document is empty and parses to a childless
root, so the covering node for any offset has no parent. -/
def envEmptyDoc : Env :=
  { parse := fun _ => .mk "source_file" false true 0 0 ⟨0, 0⟩ ⟨0, 0⟩ none .nil
    read := fun _ => some ""
    stat := fun _ => .ok
    walkDir := fun _ => [] }

/-- An environment whose every directory walk fails at once. -/
def envWalkFail : Env :=
  { parse := fun _ => .mk "source_file" false true 0 0 ⟨0, 0⟩ ⟨0, 0⟩ none .nil
    read := fun _ => some ""
    stat := fun _ => .ok
    walkDir := fun _ => [.failure] }

/-! Helper lemmas about the catalog. -/

theorem mem_insertChip_self (chips : List String) (c : String) :
    c ∈ insertChip chips c := by
  unfold insertChip
  split
  · next h => exact List.mem_of_elem_eq_true h
  · exact List.mem_append_right _ (List.mem_singleton.mpr rfl)

theorem subset_insertChip (chips : List String) (c : String) :
    chips ⊆ insertChip chips c := by
  unfold insertChip
  split
  · exact fun x hx => hx
  · exact List.subset_append_left _ _

theorem insertChip_of_mem {chips : List String} {c : String} (h : c ∈ chips) :
    insertChip chips c = chips := by
  unfold insertChip
  rw [if_pos (List.elem_eq_true_of_mem h)]

theorem collectChipsList_subset (es : List WalkEntry) :
    ∀ chips : List String, chips ⊆ (collectChipsList es chips).1 := by
  induction es with
  | nil => exact fun chips x hx => hx
  | cons e rest ih =>
    intro chips
    cases e with
    | failure => exact fun x hx => hx
    | entry p d =>
      show chips ⊆ (collectChipsList rest _).1
      refine List.Subset.trans ?_ (ih _)
      split
      · exact subset_insertChip _ _
      · exact fun x hx => hx

theorem collectChipsList_idem (es : List WalkEntry) :
    ∀ (chips res : List String) (b : Bool),
      collectChipsList es chips = (res, b) → collectChipsList es res = (res, b) := by
  induction es with
  | nil =>
    intro chips res b h
    cases h
    rfl
  | cons e rest ih =>
    intro chips res b h
    cases e with
    | failure =>
      cases h
      rfl
    | entry p d =>
      simp only [collectChipsList] at h ⊢
      by_cases hc : (!d && extPath p == ext) = true
      · rw [if_pos hc] at h ⊢
        have hmem : trimSuffixStr (basePath p) ext ∈ res := by
          have h1 : trimSuffixStr (basePath p) ext ∈ insertChip chips (trimSuffixStr (basePath p) ext) :=
            mem_insertChip_self _ _
          have h2 := collectChipsList_subset rest (insertChip chips (trimSuffixStr (basePath p) ext)) h1
          rw [h] at h2
          exact h2
        rw [insertChip_of_mem hmem]
        exact ih _ _ _ h
      · rw [if_neg hc] at h ⊢
        exact ih _ _ _ h

/-- Claim C8: catalog collection over an unchanged directory tree (the
same walk callback sequence) is idempotent: from any starting catalog,
running the collection again on the result of a first run returns the
first run's result unchanged, including its error flag. -/
theorem collectChips_idempotent (env : Env) (dir : String) (chips : List String) :
    collectChips env dir (collectChips env dir chips).1 = collectChips env dir chips :=
  collectChipsList_idem (env.walkDir dir) chips
    (collectChips env dir chips).1 (collectChips env dir chips).2 rfl

/-- Claim C9: the component catalog grows monotonically: handling any
event (document open, document change, definition request) leaves the
catalog a superset of what it was; nothing is ever removed. -/
theorem handleEvent_catalog_monotone (env : Env) (chips : List String) (e : Event) :
    chips ⊆ handleEvent env chips e := by
  cases e with
  | openDoc uri text version =>
    have h1 := collectChipsList_subset (env.walkDir (builtInChipsDir uri)) chips
    have h2 := collectChipsList_subset (env.walkDir (baseDir uri))
      (collectChips env (builtInChipsDir uri) chips).1
    simp only [handleEvent, onDidOpenTextDocument]
    split
    · exact h1
    · split
      · exact List.Subset.trans h1 h2
      · split
        · exact List.Subset.trans h1 h2
        · exact List.Subset.trans h1 h2
  | changeDoc uri version changes => exact fun x hx => hx
  | defRequest uri line char => exact fun x hx => hx

/-- Counterexample for C2: the translator does not always return an
offset.  The text consists of one line, and the requested line index 1
equals the number of lines, so the Go guard (which tests strict
inequality only) does not fire and lines[1] is an index out of range
panic, modelled as none. -/
theorem getByteOffset_panic_counterexample : getByteOffset "a" 1 0 = none := by rfl

/-- Claim C2 as amended: the total byte length is returned only when the
line index strictly exceeds the number of split lines; when the line
index equals the number of lines, or the character exceeds the length of
the addressed line, the translator does not clamp but panics (none).
Inside bounds it returns the sum of the preceding line lengths (each
plus one separator byte) plus the character. -/
theorem getByteOffset_amended (text : String) (line char : Nat) :
    (line > (splitLines text.data).length → getByteOffset text line char = some text.data.length) ∧
    (line = (splitLines text.data).length → getByteOffset text line char = none) ∧
    (∀ l, (splitLines text.data)[line]? = some l →
      ((char ≤ l.length → getByteOffset text line char =
          some ((((splitLines text.data).take line).foldl (fun acc li => acc + li.length + 1) 0) + char)) ∧
       (char > l.length → getByteOffset text line char = none))) := by
  refine ⟨?_, ?_, ?_⟩
  · intro h
    simp only [getByteOffset]
    rw [if_pos h]
  · intro h
    have hn : (splitLines text.data)[line]? = none := by
      rw [List.getElem?_eq_none]
      omega
    simp only [getByteOffset]
    rw [if_neg (by omega), hn]
  · intro l hl
    have hlt : line < (splitLines text.data).length := by
      by_contra hge
      rw [List.getElem?_eq_none (by omega)] at hl
      cases hl
    have hng : ¬ (line > (splitLines text.data).length) := by omega
    constructor
    · intro hc
      simp only [getByteOffset]
      rw [if_neg hng, hl]
      exact if_pos hc
    · intro hc
      simp only [getByteOffset]
      rw [if_neg hng, hl]
      exact if_neg (by omega)

/-- Witness for C2: on the two line text ab, cd the amended theorem
gives the clamp at line 3, the panic at line 2 (equal to the line
count), the panic at character 3 of line 0, and the plain offset at
character 1 of line 0. -/
theorem getByteOffset_amended_witness :
    getByteOffset "ab\ncd" 3 0 = some 5 ∧
    getByteOffset "ab\ncd" 2 0 = none ∧
    getByteOffset "ab\ncd" 0 1 = some 1 ∧
    getByteOffset "ab\ncd" 0 3 = none :=
  ⟨(getByteOffset_amended "ab\ncd" 3 0).1 (by decide),
   (getByteOffset_amended "ab\ncd" 2 0).2.1 (by decide),
   (((getByteOffset_amended "ab\ncd" 0 1).2.2 ['a', 'b'] (by decide)).1 (by decide)).trans (by decide),
   ((getByteOffset_amended "ab\ncd" 0 3).2.2 ['a', 'b'] (by decide)).2 (by decide)⟩

/-- Claim C7: when either directory walk of the open handler fails, the
handler returns that failure as a walk error outcome, which carries no
published diagnostics and is not a crash; the first failing walk wins. -/
theorem onDidOpen_walk_failure (env : Env) (uri text : String) (version : Nat)
    (chips : List String) :
    ((collectChips env (builtInChipsDir uri) chips).2 = false →
      onDidOpenTextDocument env uri text version chips =
        .walkError (collectChips env (builtInChipsDir uri) chips).1) ∧
    ((collectChips env (builtInChipsDir uri) chips).2 = true →
      (collectChips env (baseDir uri) (collectChips env (builtInChipsDir uri) chips).1).2 = false →
      onDidOpenTextDocument env uri text version chips =
        .walkError (collectChips env (baseDir uri) (collectChips env (builtInChipsDir uri) chips).1).1) := by
  constructor
  · intro h
    simp only [onDidOpenTextDocument, h]
    rfl
  · intro h1 h2
    simp only [onDidOpenTextDocument, h1, h2]
    rfl

/-- Witness for C7: an environment whose every walk errors at once
makes the open handler return the walk error with nothing published. -/
theorem onDidOpen_walk_failure_witness :
    onDidOpenTextDocument envWalkFail "file:///w/a.hdl" "" 1 [] = .walkError [] :=
  ((onDidOpen_walk_failure envWalkFail "file:///w/a.hdl" "" 1 []).1 rfl).trans (by decide)

/-! Helper lemma for the URI decoding claim. -/

theorem queryUnescapeList_no_percent :
    ∀ cs : List Char, '%' ∉ cs → queryUnescapeList cs = some (cs.map plusToSpace) := by
  intro cs
  induction cs with
  | nil => intro _; rfl
  | cons c rest ih =>
    intro h
    have hc : c ≠ '%' := fun e => h (e ▸ List.mem_cons_self c rest)
    have hrest : '%' ∉ rest := fun m => h (List.mem_cons_of_mem _ m)
    by_cases hp : c = '+'
    · subst hp
      have h1 : queryUnescapeList ('+' :: rest) = (queryUnescapeList rest).map (fun r => ' ' :: r) := by
        simp [queryUnescapeList]
      rw [h1, ih hrest]
      rfl
    · have h1 : queryUnescapeList (c :: rest) = (queryUnescapeList rest).map (fun r => c :: r) := by
        rw [queryUnescapeList, if_neg hc, if_neg hp]
      rw [h1, ih hrest]
      have h2 : plusToSpace c = c := by simp [plusToSpace, hp]
      simp [h2]

/-- Claim C10: the URI to path translation query unescapes, so a plus in
the path becomes a space for every filesystem access: on any URI free of
percent escapes the computed path is the trimmed URI with every plus
replaced by a space (scheme stripped), and file reading consults exactly
that path. -/
theorem toFilePath_plus_becomes_space (env : Env) (uri : String)
    (h : '%' ∉ (trimSpaceStr uri).data) :
    toFilePath uri = stripPre ⟨(trimSpaceStr uri).data.map plusToSpace⟩ "file:" ∧
    readFile env uri = env.read (stripPre ⟨(trimSpaceStr uri).data.map plusToSpace⟩ "file:") := by
  have hq := queryUnescapeList_no_percent _ h
  constructor
  · simp only [toFilePath, hq, Option.getD_some]
  · simp only [readFile, toFilePath, hq, Option.getD_some]

/-- Witness for C10: the URI of the on disk file /w/a+b.hdl is resolved
to the path /w/a b.hdl, so every access goes to the wrong file. -/
theorem toFilePath_plus_becomes_space_witness :
    toFilePath "file:///w/a+b.hdl" = "///w/a b.hdl" ∧
    readFile envMain "file:///w/a+b.hdl" = envMain.read "///w/a b.hdl" :=
  ⟨((toFilePath_plus_becomes_space envMain "file:///w/a+b.hdl" (by decide)).1).trans (by decide),
   ((toFilePath_plus_becomes_space envMain "file:///w/a+b.hdl" (by decide)).2).trans (by decide)⟩

/-- Claim C4: on a part node with a present chip name field, the
diagnostic step appends exactly one self reference diagnostic when the
referenced name equals the current defining name (none otherwise) and,
independently, exactly one undefined chip diagnostic when the name is
absent from the catalog (none otherwise), both anchored at the chip name
node via newDiagnostic, followed by whatever the error child scan adds. -/
theorem processNode_part_diagnostics (source : String) (chips : List String)
    (st : WalkState) (n name : TSNode) (eds : List Diagnostic)
    (hk : trimSpaceStr n.kind = "part")
    (hf : n.childByFieldName "chip_name" = some name)
    (he : errorScan source n.childList = some eds) :
    processNode source chips n st = some
      { implementingChipName := st.implementingChipName
        diagnostics := st.diagnostics ++
          (if sliceStr source name.startByte name.endByte = st.implementingChipName then
            [newDiagnostic name
              ("Cannot use chip " ++ sliceStr source name.startByte name.endByte ++ " to implement itself")]
          else []) ++
          (if chips.contains (sliceStr source name.startByte name.endByte) then []
          else [newDiagnostic name
            ("Undefined chip name: " ++ sliceStr source name.startByte name.endByte)]) ++
          eds } := by
  have hne : ¬ trimSpaceStr n.kind = "chip_definition" := by
    rw [hk]
    decide
  simp only [processNode, if_neg hne, if_pos hk, hf, he]

/-- Witness for C4: a part referencing Bar inside a definition of Bar
with an empty catalog fires both diagnostics, anchored at the chip name
span. -/
theorem processNode_part_diagnostics_witness :
    processNode srcText [] partNodeF { implementingChipName := "Bar", diagnostics := [] } = some
      { implementingChipName := "Bar"
        diagnostics :=
          [{ range := { startPos := ⟨0, 18⟩, endPos := ⟨0, 21⟩ }
             severity := 1
             message := "Cannot use chip Bar to implement itself" },
           { range := { startPos := ⟨0, 18⟩, endPos := ⟨0, 21⟩ }
             severity := 1
             message := "Undefined chip name: Bar" }] } :=
  (processNode_part_diagnostics srcText [] { implementingChipName := "Bar", diagnostics := [] }
    partNodeF chipNameNodeF [] rfl rfl rfl).trans (by decide)

/-! Helper lemma for the error child scan. -/

theorem errorScan_eq_find (source : String) :
    ∀ (cs : List TSNode) (ds : List Diagnostic), errorScan source cs = some ds →
      ds = specSemicolonDiags source cs := by
  intro cs
  induction cs with
  | nil =>
    intro ds h
    cases h
    rfl
  | cons c rest ih =>
    intro ds h
    by_cases hc : c.isErrorNode = true
    · have hfind : (c :: rest).find? (fun c => c.isErrorNode) = some c :=
        List.find?_cons_of_pos _ hc
      simp only [specSemicolonDiags, hfind]
      simp only [errorScan, if_pos hc] at h
      by_cases hp : strStartsWith (trimSpaceStr (sliceStr source c.startByte c.endByte)) ")" = true
      · rw [if_pos hp] at h ⊢
        cases h2 : c.child 1 with
        | some second =>
          rw [h2] at h
          cases h
          rfl
        | none =>
          rw [h2] at h
          cases h
      · rw [if_neg hp] at h ⊢
        cases h
        rfl
    · have hfind : (c :: rest).find? (fun c => c.isErrorNode) =
          rest.find? (fun c => c.isErrorNode) :=
        List.find?_cons_of_neg _ hc
      simp only [errorScan, if_neg hc] at h
      have := ih ds h
      rw [this]
      simp only [specSemicolonDiags, hfind]

theorem specSemicolonDiags_length (source : String) (cs : List TSNode) :
    (specSemicolonDiags source cs).length ≤ 1 := by
  unfold specSemicolonDiags
  split
  · exact Nat.zero_le 1
  · split
    · split
      · exact Nat.le_refl 1
      · exact Nat.zero_le 1
    · exact Nat.zero_le 1

/-- Claim C5: a part node emits at most one Expected semicolon
diagnostic; the scan result equals the first error kind child rule
(children scanned in order, later children never reached): one
diagnostic exactly when that child has trimmed source text starting
with a closing parenthesis, anchored at that error node's second
child. -/
theorem errorScan_semicolon (source : String) (cs : List TSNode) (ds : List Diagnostic)
    (h : errorScan source cs = some ds) :
    ds.length ≤ 1 ∧ ds = specSemicolonDiags source cs := by
  have he := errorScan_eq_find source cs ds h
  exact ⟨he ▸ specSemicolonDiags_length source cs, he⟩

/-- Witness for C5: an error child whose text is a closing parenthesis
followed by a semicolon, with a second child to anchor at, produces the
one diagnostic. -/
theorem errorScan_semicolon_witness :
    errorScan ") ;" [TSNode.mk "ERROR" true true 0 3 ⟨0, 0⟩ ⟨0, 3⟩ none
        (.cons (.mk ")" false false 0 1 ⟨0, 0⟩ ⟨0, 1⟩ none .nil)
          (.cons (.mk ";" false false 2 3 ⟨0, 2⟩ ⟨0, 3⟩ none .nil) .nil))] =
      some [{ range := { startPos := ⟨0, 2⟩, endPos := ⟨0, 3⟩ }
              severity := 1
              message := "Expected \";\"" }] ∧
    [({ range := { startPos := ⟨0, 2⟩, endPos := ⟨0, 3⟩ }
        severity := 1
        message := "Expected \";\"" } : Diagnostic)].length ≤ 1 ∧
    [({ range := { startPos := ⟨0, 2⟩, endPos := ⟨0, 3⟩ }
        severity := 1
        message := "Expected \";\"" } : Diagnostic)] =
      specSemicolonDiags ") ;" [TSNode.mk "ERROR" true true 0 3 ⟨0, 0⟩ ⟨0, 3⟩ none
        (.cons (.mk ")" false false 0 1 ⟨0, 0⟩ ⟨0, 1⟩ none .nil)
          (.cons (.mk ";" false false 2 3 ⟨0, 2⟩ ⟨0, 3⟩ none .nil) .nil))] :=
  ⟨rfl, errorScan_semicolon _ _ _ rfl⟩

/-- Claim C3: once the request resolves to a part node with a chip name,
the location returned when the workspace candidate file exists (stat is
not a not exist error) references the workspace candidate; the built in
library candidate is referenced only in the not exist case. -/
theorem onDefinition_workspace_precedence (env : Env) (uri : String) (line char : Nat)
    (source tsrcW tsrcB : String) (off : Nat) (node name : TSNode)
    (h1 : readFile env uri = some source)
    (h2 : getByteOffset source line char = some off)
    (h3 : descendParent off (env.parse source) none = some node)
    (h4 : trimSuffixStr node.kind "\n" = "part")
    (h5 : node.childByFieldName "chip_name" = some name) :
    (env.stat (wsCandidate uri source name) ≠ .notExist →
      readFile env (wsCandidate uri source name) = some tsrcW →
      onDefinition env uri line char = .links
        [⟨"file://" ++ wsCandidate uri source name,
          capturedRange (env.parse source), capturedRange (env.parse source)⟩]) ∧
    (env.stat (wsCandidate uri source name) = .notExist →
      readFile env (builtinCandidate uri source name) = some tsrcB →
      onDefinition env uri line char = .links
        [⟨"file://" ++ builtinCandidate uri source name,
          capturedRange (env.parse source), capturedRange (env.parse source)⟩]) := by
  constructor
  · intro hs hr
    simp only [wsCandidate] at hs hr
    simp only [onDefinition, h1, h2, h3, if_pos h4, h5, if_neg hs, hr]
    rfl
  · intro hs hr
    simp only [wsCandidate] at hs
    simp only [builtinCandidate] at hr
    simp only [onDefinition, h1, h2, h3, if_pos h4, h5, if_pos hs, hr]
    rfl

/-- Witness for C3: in the fixture environment the workspace candidate
/w/p/Bar.hdl exists, so the returned location references it. -/
theorem onDefinition_workspace_precedence_witness :
    onDefinition envMain "file:///w/p/Main.hdl" 0 19 = .links
      [⟨"file:///w/p/Bar.hdl", ⟨⟨0, 5⟩, ⟨0, 8⟩⟩, ⟨⟨0, 5⟩, ⟨0, 8⟩⟩⟩] :=
  (((onDefinition_workspace_precedence envMain "file:///w/p/Main.hdl" 0 19
      srcText tgtText tgtText 19 partNodeF chipNameNodeF
      rfl rfl rfl rfl rfl).1 (by decide) rfl)).trans (by decide)

/-- Counterexample for C6: a definition request on an empty document
whose tree is a childless root.  The covering node is the root itself,
so it has no parent at all (in particular no part parent), yet the
handler does not return the empty result: it dereferences the nil
parent and panics. -/
theorem onDefinition_nil_parent_counterexample :
    onDefinition envEmptyDoc "file:///w/a.hdl" 0 0 = .crashed ∧
    descendParent 0 (envEmptyDoc.parse "") none = none ∧
    DefOutcome.crashed ≠ DefOutcome.empty :=
  ⟨rfl, rfl, by decide⟩

/-- Claim C6 as amended: when the covering node has a parent and that
parent is not a part node, or its chip name field is absent, the
handler returns the empty result and no error; when the covering node
has no parent at all the handler panics on the nil node instead. -/
theorem onDefinition_empty_amended (env : Env) (uri : String) (line char : Nat)
    (source : String) (off : Nat)
    (h1 : readFile env uri = some source)
    (h2 : getByteOffset source line char = some off) :
    (descendParent off (env.parse source) none = none →
      onDefinition env uri line char = .crashed) ∧
    (∀ node, descendParent off (env.parse source) none = some node →
      (trimSuffixStr node.kind "\n" = "part" → node.childByFieldName "chip_name" = none) →
      onDefinition env uri line char = .empty) := by
  constructor
  · intro h3
    simp only [onDefinition, h1, h2, h3]
  · intro node h3 h4
    by_cases hk : trimSuffixStr node.kind "\n" = "part"
    · simp only [onDefinition, h1, h2, h3, if_pos hk, h4 hk]
    · simp only [onDefinition, h1, h2, h3, if_neg hk]

/-- Witness for C6: the cursor inside the definition name of the fixture
document resolves to a node whose parent is the chip definition node,
not a part, and the handler returns the empty result. -/
theorem onDefinition_empty_amended_witness :
    onDefinition envMain "file:///w/p/Main.hdl" 0 6 = .empty :=
  (onDefinition_empty_amended envMain "file:///w/p/Main.hdl" 0 6 srcText 6 rfl rfl).2
    chipDefF rfl (fun hk => absurd hk (by decide))

/-- Claim C1 settles as a divergence between code and spec: the handler
parses the target file, but the position capturing walk is run over the
tree of the requesting document, so the returned target range is the
name span of the last definition of the requesting document, not of the
target file.  Here the request resolves to target file /w/p/Bar.hdl
whose definition name spans (1,5) to (1,8), yet the returned ranges are
the span (0,5) to (0,8) of the name Foo in the requesting document. -/
theorem onDefinition_range_from_requesting_tree :
    onDefinition envMain "file:///w/p/Main.hdl" 0 19 = .links
      [⟨"file:///w/p/Bar.hdl", ⟨⟨0, 5⟩, ⟨0, 8⟩⟩, ⟨⟨0, 5⟩, ⟨0, 8⟩⟩⟩] ∧
    envMain.parse tgtText = tgtTreeF ∧
    capturedRange srcTreeF = ⟨⟨0, 5⟩, ⟨0, 8⟩⟩ ∧
    capturedRange tgtTreeF = ⟨⟨1, 5⟩, ⟨1, 8⟩⟩ ∧
    (⟨⟨0, 5⟩, ⟨0, 8⟩⟩ : DiagRange) ≠ ⟨⟨1, 5⟩, ⟨1, 8⟩⟩ :=
  ⟨rfl, rfl, rfl, rfl, by decide⟩

end Hdls
